import Mathlib

/-!
Verification of the tirmite (mapmite) hit-pairing pipeline.

The repository source holds the command-line driver `cmd_tirmite.py`; it is
embedded below as `Tirmite.main` over an abstract environment capturing the
command-line flags and the observable external state (presence of tools on
PATH, nhmmer result files, mapped hits).  The `tirmite` library functions the
driver calls (hit import, candidate search `parseHits`, the iterative pairing
engine `iterateGetPairs`, the fasta/GFF writers) are not part of the source
tree; they are modelled from the specification, as documented on every such
definition.
-/

namespace Tirmite

/-- HitRecord of the spec: one positional hit.  Coordinates are 0-based
half-open on the plus strand; `strand = true` encodes `+`; `evalue` is the
quality measure (lower is better).  The `id` is assigned by the index builder,
unique within a run. -/
structure Hit where
  id : Nat
  model : String
  chrom : String
  start : Nat
  stop : Nat
  strand : Bool
  evalue : ℚ
deriving DecidableEq, Repr

/-- Genomic gap between the nearer edges of two hit spans,
`max (0, max starts - min ends)`; natural subtraction supplies the clamp
at zero. -/
def gap (h h' : Hit) : Nat :=
  max h.start h'.start - min h.stop h'.stop

/-- Distance test of the candidate rule: with `maxDist` unset every distance
is allowed; with `some d` the gap must be at most `d`. -/
def distOK (maxDist : Option Nat) (h h' : Hit) : Bool :=
  match maxDist with
  | none => true
  | some d => decide (gap h h' ≤ d)

/-- Modelled from the spec: candidate compatibility of the CandidateFinder
(spec 4.2).  Another hit is an eligible partner when it is a different hit of
the same model on the same chromosome, on the opposite strand, and within the
configured distance. -/
def compatible (maxDist : Option Nat) (h h' : Hit) : Bool :=
  decide (h.id ≠ h'.id) && (h.model == h'.model) && (h.chrom == h'.chrom)
    && (h.strand != h'.strand) && distOK maxDist h h'

/-- Remaining candidates of a hit inside a pool of currently unpaired hits
(spec 4.3 step 1: the candidate set restricted to unpaired hits). -/
def remCands (maxDist : Option Nat) (pool : List Hit) (h : Hit) : List Hit :=
  pool.filter (fun h' => compatible maxDist h h')

/-- Modelled from the spec: `parseHits` populates the hit index with the
candidate set of every hit (spec 4.2); here it returns each hit together
with its candidates among the full hit list. -/
def parseHits (maxDist : Option Nat) (hits : List Hit) : List (Hit × List Hit) :=
  hits.map (fun h => (h, remCands maxDist hits h))

/-- Strict preference order used to rank the candidates of `h`
(spec 4.3 step 1): lower e-value first, then smaller genomic gap, then lower
hit id. -/
def betterCand (h a b : Hit) : Bool :=
  decide (a.evalue < b.evalue)
    || (decide (a.evalue = b.evalue)
        && (decide (gap h a < gap h b)
            || (decide (gap h a = gap h b) && decide (a.id < b.id))))

/-- Best element of a candidate list under `betterCand`. -/
def pickBest (h : Hit) : List Hit → Option Hit
  | [] => none
  | c :: cs =>
    match pickBest h cs with
    | none => some c
    | some b => if betterCand h c b then some c else some b

/-- Best remaining candidate of `h` within the pool of unpaired hits. -/
def bestOf (maxDist : Option Nat) (pool : List Hit) (h : Hit) : Option Hit :=
  pickBest h (remCands maxDist pool h)

/-- Mutual-best test for one unpaired hit: the pair `(a, b)` is produced when
`b` is the best remaining candidate of `a`, `a` is the best remaining
candidate of `b`, and `a` carries the smaller id (so each mutual pair is
recorded exactly once). -/
def mutualBest (maxDist : Option Nat) (pool : List Hit) (a : Hit) : Option (Hit × Hit) :=
  match bestOf maxDist pool a with
  | none => none
  | some b =>
    match bestOf maxDist pool b with
    | none => none
    | some a' => if a' = a ∧ a.id < b.id then some (a, b) else none

/-- Modelled from the spec: one pairing round (spec 4.3 steps 1-3).  Every
unpaired hit whose best remaining candidate reciprocates is committed as a
pair. -/
def roundPairs (maxDist : Option Nat) (pool : List Hit) : List (Hit × Hit) :=
  pool.filterMap (mutualBest maxDist pool)

/-- Membership of a hit in the pairs committed this round. -/
def inPairs (np : List (Hit × Hit)) (h : Hit) : Bool :=
  np.any (fun p => decide (p.1 = h) || decide (p.2 = h))

/-- Mutable engine state of the pairing loop: hits still unpaired, committed
pairs, and the patience counter, which starts at `stableReps + 1` and counts
the unproductive rounds the engine will still tolerate. -/
structure PairState where
  unpaired : List Hit
  paired : List (Hit × Hit)
  patience : Nat
deriving DecidableEq, Repr

/-- Flattened hit ids of a list of committed pairs. -/
def pairMemberIds : List (Hit × Hit) → List Nat
  | [] => []
  | p :: ps => p.1.id :: p.2.id :: pairMemberIds ps

/-- Every unpaired hit has an empty remaining-candidate set (first half of the
termination condition, spec 4.3 step 6). -/
def noCandsLeft (maxDist : Option Nat) (st : PairState) : Bool :=
  st.unpaired.all (fun h => (remCands maxDist st.unpaired h).isEmpty)

/-- Termination condition of the engine: no unpaired hit has a remaining
candidate, or `stableReps + 1` consecutive unproductive rounds have elapsed
(the patience counter reached zero). -/
def stopCond (maxDist : Option Nat) (st : PairState) : Bool :=
  noCandsLeft maxDist st || decide (st.patience = 0)

/-- Modelled from the spec: one engine round applied to the state
(spec 4.3 steps 2-5).  A productive round commits all mutual-best pairs
simultaneously, removes their members from the unpaired pool and resets the
patience counter; an unproductive round only decrements the counter. -/
def step (maxDist : Option Nat) (stableReps : Nat) (st : PairState) : PairState :=
  if (roundPairs maxDist st.unpaired).isEmpty then
    { st with patience := st.patience - 1 }
  else
    { unpaired := st.unpaired.filter (fun h => !(inPairs (roundPairs maxDist st.unpaired) h)),
      paired := st.paired ++ roundPairs maxDist st.unpaired,
      patience := stableReps + 1 }

/-- Fuel-indexed pairing loop: stop as soon as `stopCond` holds, otherwise
run one round and recurse. -/
def pairLoop (maxDist : Option Nat) (stableReps : Nat) : Nat → PairState → PairState
  | 0, st => st
  | fuel + 1, st =>
    if stopCond maxDist st then st else pairLoop maxDist stableReps fuel (step maxDist stableReps st)

/-- Initial engine state: all hits unpaired, no pairs, full patience. -/
def initState (hits : List Hit) (stableReps : Nat) : PairState :=
  { unpaired := hits, paired := [], patience := stableReps + 1 }

/-- Fuel that always suffices for the loop to reach its termination
condition (proved below): every round either retires at least two hits or
consumes one unit of patience. -/
def engineFuel (hits : List Hit) (stableReps : Nat) : Nat :=
  (hits.length + 1) * (stableReps + 2)

/-- Modelled from the spec: the iterative pairing engine `iterateGetPairs`
(spec 4.3).  It resolves mutual-best pairs round by round until no unpaired
hit has a remaining candidate or `stableReps + 1` consecutive rounds were
unproductive, and returns the final state: committed pairs, leftover
unpaired hits, and the exhausted patience counter. -/
def iterateGetPairs (maxDist : Option Nat) (hits : List Hit) (stableReps : Nat) : PairState :=
  pairLoop maxDist stableReps (engineFuel hits stableReps) (initState hits stableReps)

/-- Measure of an engine state used for the termination argument. -/
def stMeasure (stableReps : Nat) (st : PairState) : Nat :=
  st.unpaired.length * (stableReps + 2) + st.patience

/-- Lexicographic order on character lists by code point. -/
def charListLt : List Char → List Char → Bool
  | [], [] => false
  | [], _ :: _ => true
  | _ :: _, [] => false
  | a :: as, b :: bs =>
    decide (a.toNat < b.toNat) || (decide (a.toNat = b.toNat) && charListLt as bs)

/-- Lexicographic order on strings by code point. -/
def strLt (a b : String) : Bool := charListLt a.data b.data

/-- Leading-segment test on character lists by code point. -/
def charListBegins : List Char → List Char → Bool
  | [], _ => true
  | _ :: _, [] => false
  | a :: as, b :: bs => decide (a.toNat = b.toNat) && charListBegins as bs

/-- Whether the string `s` begins with the string `p`. -/
def strBegins (p s : String) : Bool := charListBegins p.data s.data

/-- Positional order on hits used for reproducible output numbering:
chromosome, then start coordinate, then hit id. -/
def hitPosLe (a b : Hit) : Bool :=
  strLt a.chrom b.chrom
    || ((a.chrom == b.chrom)
        && (decide (a.start < b.start)
            || ((a.start == b.start) && decide (a.id ≤ b.id))))

/-- Insertion step of the positional sort on hits. -/
def insertHit (a : Hit) : List Hit → List Hit
  | [] => [a]
  | b :: t => if hitPosLe a b then a :: b :: t else b :: insertHit a t

/-- Insertion sort of hits into chromosome/position order. -/
def sortHits : List Hit → List Hit
  | [] => []
  | a :: t => insertHit a (sortHits t)

/-- Positional order on committed pairs: chromosome then leftmost start. -/
def pairPosLe (a b : Hit × Hit) : Bool :=
  strLt a.1.chrom b.1.chrom
    || ((a.1.chrom == b.1.chrom)
        && decide (min a.1.start a.2.start ≤ min b.1.start b.2.start))

/-- Insertion step of the positional sort on pairs. -/
def insertPair (a : Hit × Hit) : List (Hit × Hit) → List (Hit × Hit)
  | [] => [a]
  | b :: t => if pairPosLe a b then a :: b :: t else b :: insertPair a t

/-- Insertion sort of pairs into chromosome/position order. -/
def sortPairs : List (Hit × Hit) → List (Hit × Hit)
  | [] => []
  | a :: t => insertPair a (sortPairs t)

/-- Optional name prefix applied to a generated feature or sequence name. -/
def applyPfx (pfx : Option String) (s : String) : String :=
  match pfx with
  | some p => p ++ "_" ++ s
  | none => s

/-- Element feature of the spec: chromosome, merged span, model, base name,
and the ids of the two member hits (a single id for unpaired TIR features). -/
structure GffTup where
  seqid : String
  start : Nat
  stop : Nat
  name : String
  model : String
  members : List Nat
deriving DecidableEq, Repr

/-- Element built from one committed pair: merged span `[min starts, max
ends)` on the shared chromosome, with a sequential numeric name suffix. -/
def mkElement (n : Nat) (p : Hit × Hit) : GffTup :=
  { seqid := p.1.chrom,
    start := min p.1.start p.2.start,
    stop := max p.1.stop p.2.stop,
    name := "element_" ++ toString n,
    model := p.1.model,
    members := [p.1.id, p.2.id] }

/-- Numbering pass of the element extractor. -/
def fetchElementsAux (n : Nat) : List (Hit × Hit) → List GffTup
  | [] => []
  | p :: t => mkElement n p :: fetchElementsAux (n + 1) t

/-- Modelled from the spec: `fetchElements` (spec 4.4) derives one element
feature per committed pair, with sequential numeric suffixes assigned in
chromosome/position order. -/
def fetchElements (paired : List (Hit × Hit)) : List GffTup :=
  fetchElementsAux 1 (sortPairs paired)

/-- Modelled from the spec: `fetchUnpaired` derives one single-member TIR
feature per leftover unpaired hit. -/
def fetchUnpaired (unpaired : List Hit) : List GffTup :=
  unpaired.map (fun h =>
    { seqid := h.chrom, start := h.start, stop := h.stop,
      name := h.model ++ "_TIR_" ++ toString h.id,
      model := h.model, members := [h.id] })

/-- TIR records that pass the e-value threshold, in output order.  The
`maxeval` filter is applied here, at emission time, and nowhere else. -/
def tirRecords (hitTable : List Hit) (maxeval : ℚ) : List Hit :=
  (sortHits hitTable).filter (fun h => decide (h.evalue ≤ maxeval))

/-- Naming pass of the TIR fasta writer. -/
def writeTIRsAux (pfx : Option String) (n : Nat) : List Hit → List String
  | [] => []
  | h :: t => applyPfx pfx (h.model ++ "_" ++ toString n) :: writeTIRsAux pfx (n + 1) t

/-- Modelled from the spec: `writeTIRs` emits one fasta record per hit that
passes the `maxeval` threshold, named from the model with a sequential
suffix and the optional run prefix.  The prefix defaults to unset, matching
the Python keyword default. -/
def writeTIRs (hitTable : List Hit) (maxeval : ℚ) (pfx : Option String) : List String :=
  writeTIRsAux pfx 1 (tirRecords hitTable maxeval)

/-- Modelled from the spec: `writeElements` emits one fasta record per
element, its name carrying the optional run prefix. -/
def writeElements (eles : List GffTup) (pfx : Option String) : List String :=
  eles.map (fun e => applyPfx pfx e.name)

/-- Modelled from the spec: `gffWrite` emits the element features and,
depending on the reporting mode, the unpaired TIR features, all names
carrying the optional run prefix. -/
def gffWrite (featureList : List GffTup) (unpaired : Option (List GffTup))
    (pfx : Option String) : List String :=
  featureList.map (fun e => applyPfx pfx e.name)
    ++ (match unpaired with
        | some us => us.map (fun e => applyPfx pfx e.name)
        | none => [])

/-- Modelled from the spec: `import_nhmmer` folds one nhmmer result file
into the accumulated hit table.  Per the spec (4.4) generated names are
produced at serialization time, so the run prefix does not alter
the imported records themselves. -/
def import_nhmmer (infile : List Hit) (hitTable : List Hit) (pfx : Option String) : List Hit :=
  hitTable ++ infile

/-- Modelled from the spec: `import_mapped` turns bowtie2 mapping locations
into the hit table; as with `import_nhmmer`, the records are not renamed
at import time. -/
def import_mapped (infile : List Hit) (pfx : Option String) : List Hit :=
  infile

/-- PATH presence check of `cmd_tirmite.py` lines 52-57: a missing tool
contributes its own name, a present tool contributes nothing. -/
def missing_tool (which : String → Bool) (tool_name : String) : List String :=
  if which tool_name then [] else [tool_name]

/-- Default names of the seven external binaries checked by the driver. -/
def defaultTools : List String :=
  ["hmmpress", "nhmmer", "hmmbuild", "bowtie2", "bowtie2-build", "samtools", "bedtools"]

/-- Environment of one driver run: the command-line options the claims
depend on, plus the observable external state (PATH lookups, the nhmmer
result files found after the search step, the bowtie2-mapped hits). -/
structure Env where
  toolPath : String → Bool
  tools : List String
  useBowtie2 : Bool
  mappedHits : List Hit
  resultFiles : List (List Hit)
  resultDir : String
  nopairing : Bool
  keeptemp : Bool
  gffOut : Option String
  reportTIR : String
  pfx : Option String
  maxeval : ℚ
  maxdist : Option Nat
  stableReps : Nat

/-- Observable outcome of one driver run.  `exitCode = some n` records an
explicit `sys.exit(n)`; `none` means `main` returned normally (process exit
status 0).  The writer fields are `none` when the corresponding write step
was never reached. -/
structure Outcome where
  warnings : List String
  infos : List String
  exitCode : Option Nat
  removedTemp : Bool
  tirNames : Option (List String)
  elementNames : Option (List String)
  gffNames : Option (List String)
  pairing : Option PairState
deriving DecidableEq

/-- Warning lines printed by the tool check of `cmd_tirmite.py` lines 64-72;
the check only prints and never aborts. -/
def toolWarnings (env : Env) : List String :=
  let missing := env.tools.flatMap (missing_tool env.toolPath)
  if missing.isEmpty then []
  else
    ["WARNING: Some tools required by tirmite could not be found: "
        ++ String.intercalate ", " missing,
      "You may need to install them to use all features."]

/-- Hit table assembled by the import stage (`cmd_tirmite.py` lines 80-113):
bowtie2-mapped hits on the alternative path, otherwise the nhmmer result
files folded together by `import_nhmmer`. -/
def hitTableOf (env : Env) : List Hit :=
  if env.useBowtie2 then import_mapped env.mappedHits env.pfx
  else env.resultFiles.foldl (fun acc f => import_nhmmer f acc env.pfx) []

/-- Driver body after the tool check, embedding `cmd_tirmite.py` lines
74-154: the no-hits early exit (lines 105-108), the `--nopairing` branch
(lines 118-124, note `writeTIRs` is called there without the prefix
argument), and the full pairing pipeline with final temp-dir removal. -/
def mainBody (env : Env) : Outcome :=
  if env.useBowtie2 = false ∧ env.resultFiles = [] then
    { warnings := [],
      infos := ["No hits found in " ++ env.resultDir ++ " . Quitting."],
      exitCode := some 1, removedTemp := false,
      tirNames := none, elementNames := none, gffNames := none, pairing := none }
  else
    let hitTable := hitTableOf env
    if env.nopairing then
      { warnings := [], infos := [],
        tirNames := some (writeTIRs hitTable env.maxeval none),
        removedTemp := !env.keeptemp, exitCode := some 1,
        elementNames := none, gffNames := none, pairing := none }
    else
      let res := iterateGetPairs env.maxdist hitTable env.stableReps
      let eles := fetchElements res.paired
      { warnings := [], infos := [],
        tirNames := some (writeTIRs hitTable env.maxeval env.pfx),
        elementNames := some (writeElements eles env.pfx),
        gffNames :=
          if env.gffOut.isSome then
            some (gffWrite eles
              (if env.reportTIR = "all" ∨ env.reportTIR = "unpaired" then
                some (fetchUnpaired res.unpaired)
              else none) env.pfx)
          else none,
        pairing := some res,
        removedTemp := !env.keeptemp, exitCode := none }

/-- Embedded driver `main` of `cmd_tirmite.py`: the tool check contributes
only its warning lines; everything else is `mainBody`. -/
def main (env : Env) : Outcome :=
  { mainBody env with warnings := toolWarnings env }

/-- Concrete plus-strand hit used by the witnesses. -/
def hitPlus : Hit :=
  { id := 0, model := "mod1", chrom := "chr1", start := 100, stop := 120,
    strand := true, evalue := 1 }

/-- Concrete minus-strand hit used by the witnesses; its e-value (2) fails
the base environment threshold (1). -/
def hitMinus : Hit :=
  { id := 1, model := "mod1", chrom := "chr1", start := 170, stop := 190,
    strand := false, evalue := 2 }

/-- Base concrete run environment for the witnesses: all tools present, one
nhmmer result file holding the two hits above, a run prefix, and pairing
enabled. -/
def envBase : Env :=
  { toolPath := fun _ => true, tools := defaultTools, useBowtie2 := false,
    mappedHits := [], resultFiles := [[hitPlus, hitMinus]],
    resultDir := "temp/results", nopairing := false, keeptemp := false,
    gffOut := some "out.gff3", reportTIR := "all", pfx := some "P",
    maxeval := 1, maxdist := some 200, stableReps := 0 }

/-- Environment with no nhmmer result files after the search step. -/
def envNoHits : Env := { envBase with resultFiles := [] }

/-- Environment running with the hit-only `--nopairing` flag. -/
def envNoPair : Env := { envBase with nopairing := true }

/-- Environment combining `--nopairing` with an empty result directory. -/
def envNoPairNoHits : Env := { envBase with resultFiles := [], nopairing := true }

/-- Environment in which nhmmer is absent from PATH. -/
def envToolsMissing : Env := { envBase with toolPath := fun t => !(t == "nhmmer") }

/-- The best candidate returned by `pickBest` is one of the candidates. -/
theorem pickBest_mem {h : Hit} : ∀ {l : List Hit} {b : Hit}, pickBest h l = some b → b ∈ l := by
  intro l
  induction l with
  | nil => intro b hb; cases hb
  | cons c cs ih =>
    intro b hb
    rcases hp : pickBest h cs with _ | d
    · simp only [pickBest, hp, Option.some.injEq] at hb
      subst hb
      exact List.mem_cons_self c cs
    · simp only [pickBest, hp] at hb
      by_cases hbc : betterCand h c d = true
      · rw [if_pos hbc, Option.some.injEq] at hb
        subst hb
        exact List.mem_cons_self c cs
      · rw [if_neg hbc, Option.some.injEq] at hb
        subst hb
        exact List.mem_cons_of_mem c (ih hp)

/-- Membership in the remaining-candidate list unfolds to pool membership
plus compatibility. -/
theorem remCands_mem {maxDist : Option Nat} {pool : List Hit} {h b : Hit} :
    b ∈ remCands maxDist pool h ↔ b ∈ pool ∧ compatible maxDist h b = true := by
  simp [remCands, List.mem_filter]

/-- The best remaining candidate lies in the pool and is compatible. -/
theorem bestOf_mem {maxDist : Option Nat} {pool : List Hit} {h b : Hit}
    (hb : bestOf maxDist pool h = some b) :
    b ∈ pool ∧ compatible maxDist h b = true :=
  remCands_mem.mp (pickBest_mem hb)

/-- Shape of a successful mutual-best test: the produced pair records the
probe hit first, its best candidate second, the reciprocation, and the id
orientation. -/
theorem mutualBest_eq_some {maxDist : Option Nat} {pool : List Hit} {a : Hit} {p : Hit × Hit}
    (h : mutualBest maxDist pool a = some p) :
    p.1 = a ∧ bestOf maxDist pool a = some p.2
      ∧ bestOf maxDist pool p.2 = some a ∧ a.id < p.2.id := by
  rcases hb : bestOf maxDist pool a with _ | b
  · simp [mutualBest, hb] at h
  · rcases hb' : bestOf maxDist pool b with _ | a'
    · simp [mutualBest, hb, hb'] at h
    · simp only [mutualBest, hb, hb'] at h
      by_cases hc : a' = a ∧ a.id < b.id
      · rw [if_pos hc] at h
        cases h
        refine ⟨rfl, rfl, ?_, hc.2⟩
        rw [hc.1] at hb'
        exact hb'
      · rw [if_neg hc] at h
        cases h

/-- Facts recorded by a committed pair: both members come from the pool,
each is the best remaining candidate of the other, the first member has the
smaller id, and the two are compatible. -/
theorem roundPairs_mem {maxDist : Option Nat} {pool : List Hit} {p : Hit × Hit}
    (hp : p ∈ roundPairs maxDist pool) :
    p.1 ∈ pool ∧ p.2 ∈ pool ∧ bestOf maxDist pool p.1 = some p.2
      ∧ bestOf maxDist pool p.2 = some p.1 ∧ p.1.id < p.2.id
      ∧ compatible maxDist p.1 p.2 = true := by
  rcases List.mem_filterMap.mp hp with ⟨a, ha, hfa⟩
  obtain ⟨h1, h2, h3, h4⟩ := mutualBest_eq_some hfa
  subst h1
  obtain ⟨hmem, hcomp⟩ := bestOf_mem h2
  exact ⟨ha, hmem, h2, h3, h4, hcomp⟩

/-- Membership test for the pairs of one round, as an existential. -/
theorem inPairs_iff {np : List (Hit × Hit)} {h : Hit} :
    inPairs np h = true ↔ ∃ p ∈ np, p.1 = h ∨ p.2 = h := by
  simp [inPairs, List.any_eq_true]

/-- Flattened member ids of an appended pair list. -/
theorem pairMemberIds_append (ps qs : List (Hit × Hit)) :
    pairMemberIds (ps ++ qs) = pairMemberIds ps ++ pairMemberIds qs := by
  induction ps with
  | nil => simp [pairMemberIds]
  | cons p t ih => simp [pairMemberIds, ih]

/-- Membership in the flattened member ids, as an existential. -/
theorem mem_pairMemberIds {i : Nat} : ∀ {ps : List (Hit × Hit)},
    i ∈ pairMemberIds ps ↔ ∃ p ∈ ps, p.1.id = i ∨ p.2.id = i := by
  intro ps
  induction ps with
  | nil => simp [pairMemberIds]
  | cons p t ih =>
    simp only [pairMemberIds, List.mem_cons, ih]
    constructor
    · rintro (h | h | ⟨q, hq, hside⟩)
      · exact ⟨p, Or.inl rfl, Or.inl h.symm⟩
      · exact ⟨p, Or.inl rfl, Or.inr h.symm⟩
      · exact ⟨q, Or.inr hq, hside⟩
    · rintro ⟨q, hq | hq, hside | hside⟩
      · subst hq; exact Or.inl hside.symm
      · subst hq; exact Or.inr (Or.inl hside.symm)
      · exact Or.inr (Or.inr ⟨q, hq, Or.inl hside⟩)
      · exact Or.inr (Or.inr ⟨q, hq, Or.inr hside⟩)

/-- The flattened member ids are a permutation of the first-member ids
followed by the second-member ids. -/
theorem pairMemberIds_perm (ps : List (Hit × Hit)) :
    List.Perm (pairMemberIds ps)
      (ps.map (fun p => p.1.id) ++ ps.map (fun p => p.2.id)) := by
  induction ps with
  | nil => simp [pairMemberIds]
  | cons p t ih =>
    simp only [pairMemberIds, List.map_cons, List.cons_append]
    exact List.Perm.cons _ (List.Perm.trans (List.Perm.cons _ ih) List.perm_middle.symm)

/-- Hit ids are an injective key on a pool with duplicate-free ids. -/
theorem hit_id_inj {pool : List Hit} (hp : (pool.map Hit.id).Nodup)
    {x y : Hit} (hx : x ∈ pool) (hy : y ∈ pool) (e : x.id = y.id) : x = y :=
  List.inj_on_of_nodup_map hp hx hy e

/-- The member ids of the pairs committed in one round are duplicate-free
whenever the pool has duplicate-free ids: a hit anchors at most one mutual
pair per round. -/
theorem roundPairs_ids_nodup {maxDist : Option Nat} {pool : List Hit}
    (hp : (pool.map Hit.id).Nodup) :
    (pairMemberIds (roundPairs maxDist pool)).Nodup := by
  have poolNodup : pool.Nodup := hp.of_map
  have npNodup : (roundPairs maxDist pool).Nodup := by
    refine poolNodup.filterMap ?_
    intro a a' b hba hba'
    have h1 := (mutualBest_eq_some (Option.mem_def.mp hba)).1
    have h2 := (mutualBest_eq_some (Option.mem_def.mp hba')).1
    rw [← h1, ← h2]
  have fstNodup : ((roundPairs maxDist pool).map (fun p => p.1.id)).Nodup := by
    refine npNodup.map_on ?_
    intro x hx y hy e
    obtain ⟨hx1, _, hxb, _, _, _⟩ := roundPairs_mem hx
    obtain ⟨hy1, _, hyb, _, _, _⟩ := roundPairs_mem hy
    have hxy : x.1 = y.1 := hit_id_inj hp hx1 hy1 e
    have h2 : some x.2 = some y.2 := by rw [← hxb, hxy, hyb]
    exact Prod.ext hxy (Option.some.inj h2)
  have sndNodup : ((roundPairs maxDist pool).map (fun p => p.2.id)).Nodup := by
    refine npNodup.map_on ?_
    intro x hx y hy e
    obtain ⟨_, hx2, _, hxb', _, _⟩ := roundPairs_mem hx
    obtain ⟨_, hy2, _, hyb', _, _⟩ := roundPairs_mem hy
    have hxy : x.2 = y.2 := hit_id_inj hp hx2 hy2 e
    have h2 : some x.1 = some y.1 := by rw [← hxb', hxy, hyb']
    exact Prod.ext (Option.some.inj h2) hxy
  have hdisj : ((roundPairs maxDist pool).map (fun p => p.1.id)).Disjoint
      ((roundPairs maxDist pool).map (fun p => p.2.id)) := by
    intro i hif his
    rcases List.mem_map.mp hif with ⟨x, hx, hxe⟩
    rcases List.mem_map.mp his with ⟨y, hy, hye⟩
    obtain ⟨hx1, hx2, hxb, hxb', hxlt, _⟩ := roundPairs_mem hx
    obtain ⟨hy1, hy2, hyb, hyb', hylt, _⟩ := roundPairs_mem hy
    have e : x.1 = y.2 := hit_id_inj hp hx1 hy2 (by rw [hxe, ← hye])
    have e2 : some x.2 = some y.1 := by rw [← hxb, e, hyb']
    have e2' : x.2 = y.1 := Option.some.inj e2
    have q1 : x.2.id = y.1.id := by rw [e2']
    have q2 : x.1.id = y.2.id := by rw [e]
    omega
  exact (pairMemberIds_perm (roundPairs maxDist pool)).symm.nodup
    (List.nodup_append.mpr ⟨fstNodup, sndNodup, hdisj⟩)

/-- The member ids of the pairs committed in a round are exactly the ids of
the pool hits removed by that round. -/
theorem round_removed_perm {maxDist : Option Nat} {pool : List Hit}
    (hU : (pool.map Hit.id).Nodup) :
    List.Perm (pairMemberIds (roundPairs maxDist pool))
      ((pool.filter (fun h => inPairs (roundPairs maxDist pool) h)).map Hit.id) := by
  refine List.perm_of_nodup_nodup_toFinset_eq (roundPairs_ids_nodup hU)
    (hU.sublist ((List.filter_sublist _).map Hit.id)) ?_
  ext i
  simp only [List.mem_toFinset, List.mem_map, List.mem_filter]
  constructor
  · intro hi
    rcases mem_pairMemberIds.mp hi with ⟨p, hpnp, hside⟩
    obtain ⟨hp1, hp2, _, _, _, _⟩ := roundPairs_mem hpnp
    rcases hside with hside | hside
    · exact ⟨p.1, ⟨hp1, inPairs_iff.mpr ⟨p, hpnp, Or.inl rfl⟩⟩, hside⟩
    · exact ⟨p.2, ⟨hp2, inPairs_iff.mpr ⟨p, hpnp, Or.inr rfl⟩⟩, hside⟩
  · rintro ⟨h, ⟨hhu, hin⟩, hid⟩
    rcases inPairs_iff.mp hin with ⟨p, hpnp, hside⟩
    rcases hside with hside | hside
    · exact mem_pairMemberIds.mpr ⟨p, hpnp, Or.inl (by rw [hside, hid])⟩
    · exact mem_pairMemberIds.mpr ⟨p, hpnp, Or.inr (by rw [hside, hid])⟩

/-- One round conserves the pool ids: the committed member ids together with
the ids of the kept hits are a permutation of the pool ids. -/
theorem round_split_perm {maxDist : Option Nat} {pool : List Hit}
    (hU : (pool.map Hit.id).Nodup) :
    List.Perm (pairMemberIds (roundPairs maxDist pool)
        ++ (pool.filter (fun h => !(inPairs (roundPairs maxDist pool) h))).map Hit.id)
      (pool.map Hit.id) := by
  have h1 := List.filter_append_perm (fun h => !(inPairs (roundPairs maxDist pool) h)) pool
  have h2 : pool.filter (fun x => !(!(inPairs (roundPairs maxDist pool) x)))
      = pool.filter (fun h => inPairs (roundPairs maxDist pool) h) := by
    simp only [Bool.not_not]
  rw [h2] at h1
  have h1' := h1.map Hit.id
  rw [List.map_append] at h1'
  refine List.Perm.trans ?_ h1'
  refine List.Perm.trans (List.Perm.append_right _ (round_removed_perm hU)) ?_
  exact List.perm_append_comm

/-- One engine step conserves the combined ids of committed pairs and
unpaired hits. -/
theorem step_ids_perm {maxDist : Option Nat} {stableReps : Nat} {st : PairState}
    (hU : (st.unpaired.map Hit.id).Nodup) :
    List.Perm (pairMemberIds (step maxDist stableReps st).paired
        ++ (step maxDist stableReps st).unpaired.map Hit.id)
      (pairMemberIds st.paired ++ st.unpaired.map Hit.id) := by
  by_cases hne : (roundPairs maxDist st.unpaired).isEmpty = true
  · rw [step, if_pos hne]
  · rw [step, if_neg hne]
    dsimp only
    rw [pairMemberIds_append, List.append_assoc]
    exact List.Perm.append_left _ (round_split_perm hU)

/-- The pairing loop conserves the combined ids of committed pairs and
unpaired hits, relative to a fixed initial hit list with duplicate-free
ids. -/
theorem pairLoop_ids_perm (maxDist : Option Nat) (stableReps : Nat) {hits0 : List Hit}
    (hnd : (hits0.map Hit.id).Nodup) :
    ∀ fuel st,
      List.Perm (pairMemberIds st.paired ++ st.unpaired.map Hit.id) (hits0.map Hit.id) →
      List.Perm (pairMemberIds (pairLoop maxDist stableReps fuel st).paired
          ++ (pairLoop maxDist stableReps fuel st).unpaired.map Hit.id)
        (hits0.map Hit.id) := by
  intro fuel
  induction fuel with
  | zero => intro st h; simpa [pairLoop] using h
  | succ n ih =>
    intro st h
    by_cases hs : stopCond maxDist st = true
    · rw [pairLoop, if_pos hs]; exact h
    · rw [pairLoop, if_neg hs]
      refine ih _ ?_
      have hU : (st.unpaired.map Hit.id).Nodup := by
        have hcomb : (pairMemberIds st.paired ++ st.unpaired.map Hit.id).Nodup :=
          h.symm.nodup hnd
        exact (List.nodup_append.mp hcomb).2.1
      exact List.Perm.trans (step_ids_perm hU) h

/-- The pairing loop only ever commits compatible pairs. -/
theorem pairLoop_compat (maxDist : Option Nat) (stableReps : Nat) :
    ∀ fuel st, (∀ p ∈ st.paired, compatible maxDist p.1 p.2 = true) →
      ∀ p ∈ (pairLoop maxDist stableReps fuel st).paired,
        compatible maxDist p.1 p.2 = true := by
  intro fuel
  induction fuel with
  | zero => intro st h; simpa [pairLoop] using h
  | succ n ih =>
    intro st h
    by_cases hs : stopCond maxDist st = true
    · rw [pairLoop, if_pos hs]; exact h
    · rw [pairLoop, if_neg hs]
      refine ih _ ?_
      intro p hp
      by_cases hne : (roundPairs maxDist st.unpaired).isEmpty = true
      · rw [step, if_pos hne] at hp
        exact h p hp
      · rw [step, if_neg hne] at hp
        dsimp only at hp
        rcases List.mem_append.mp hp with hp | hp
        · exact h p hp
        · exact (roundPairs_mem hp).2.2.2.2.2

/-- Every initial hit stays accounted for by the loop: it is still unpaired
or its id occurs among the committed pair members. -/
theorem pairLoop_cover (maxDist : Option Nat) (stableReps : Nat) {hits0 : List Hit} :
    ∀ fuel st, (∀ x ∈ hits0, x ∈ st.unpaired ∨ x.id ∈ pairMemberIds st.paired) →
      ∀ x ∈ hits0, x ∈ (pairLoop maxDist stableReps fuel st).unpaired
        ∨ x.id ∈ pairMemberIds (pairLoop maxDist stableReps fuel st).paired := by
  intro fuel
  induction fuel with
  | zero => intro st h; simpa [pairLoop] using h
  | succ n ih =>
    intro st h
    by_cases hs : stopCond maxDist st = true
    · rw [pairLoop, if_pos hs]; exact h
    · rw [pairLoop, if_neg hs]
      refine ih _ ?_
      intro x hx
      by_cases hne : (roundPairs maxDist st.unpaired).isEmpty = true
      · rw [step, if_pos hne]
        exact h x hx
      · rw [step, if_neg hne]
        dsimp only
        rcases h x hx with hu | hpids
        · by_cases hin : inPairs (roundPairs maxDist st.unpaired) x = true
          · right
            rw [pairMemberIds_append]
            refine List.mem_append.mpr (Or.inr ?_)
            rcases inPairs_iff.mp hin with ⟨p, hpnp, hside | hside⟩
            · exact mem_pairMemberIds.mpr ⟨p, hpnp, Or.inl (by rw [hside])⟩
            · exact mem_pairMemberIds.mpr ⟨p, hpnp, Or.inr (by rw [hside])⟩
          · left
            exact List.mem_filter.mpr ⟨hu, by simp [hin]⟩
        · right
          rw [pairMemberIds_append]
          exact List.mem_append.mpr (Or.inl hpids)

/-- A non-terminal engine step strictly decreases the loop measure: an
unproductive round consumes patience, a productive round retires at least
two hits. -/
theorem step_measure_lt (maxDist : Option Nat) (stableReps : Nat) {st : PairState}
    (hstop : stopCond maxDist st = false) :
    stMeasure stableReps (step maxDist stableReps st) < stMeasure stableReps st := by
  by_cases hne : (roundPairs maxDist st.unpaired).isEmpty = true
  · rw [step, if_pos hne]
    have hp : st.patience ≠ 0 := by
      intro h0
      rw [stopCond, h0] at hstop
      simp at hstop
    dsimp only [stMeasure]
    exact Nat.add_lt_add_left (by omega) _
  · rw [step, if_neg hne]
    dsimp only [stMeasure]
    obtain ⟨p₀, hp₀⟩ : ∃ p₀, p₀ ∈ roundPairs maxDist st.unpaired := by
      rcases hrp : roundPairs maxDist st.unpaired with _ | ⟨q, t⟩
      · rw [hrp] at hne; simp at hne
      · exact ⟨q, List.mem_cons_self q t⟩
    obtain ⟨h1, h2, _, _, hlt, _⟩ := roundPairs_mem hp₀
    have hab : p₀.1 ≠ p₀.2 := fun e => by rw [e] at hlt; omega
    have hsubset : [p₀.1, p₀.2] ⊆
        st.unpaired.filter (fun h => inPairs (roundPairs maxDist st.unpaired) h) := by
      intro x hx
      rcases List.mem_cons.mp hx with hx | hx
      · subst hx
        exact List.mem_filter.mpr ⟨h1, inPairs_iff.mpr ⟨p₀, hp₀, Or.inl rfl⟩⟩
      · rcases List.mem_cons.mp hx with hx | hx
        · subst hx
          exact List.mem_filter.mpr ⟨h2, inPairs_iff.mpr ⟨p₀, hp₀, Or.inr rfl⟩⟩
        · cases hx
    have hnd2 : ([p₀.1, p₀.2] : List Hit).Nodup := by simp [hab]
    have hlen2 : 2 ≤
        (st.unpaired.filter (fun h => inPairs (roundPairs maxDist st.unpaired) h)).length := by
      have := (List.subperm_of_subset hnd2 hsubset).length_le
      simpa using this
    have hsplit :
        (st.unpaired.filter (fun h => !(inPairs (roundPairs maxDist st.unpaired) h))).length
          + (st.unpaired.filter (fun h => inPairs (roundPairs maxDist st.unpaired) h)).length
          = st.unpaired.length := by
      have hperm :=
        (List.filter_append_perm (fun h => !(inPairs (roundPairs maxDist st.unpaired) h))
          st.unpaired).length_eq
      rw [List.length_append] at hperm
      simpa [Bool.not_not] using hperm
    have hkL :
        (st.unpaired.filter (fun h => !(inPairs (roundPairs maxDist st.unpaired) h))).length + 2
          ≤ st.unpaired.length := by omega
    calc (st.unpaired.filter
            (fun h => !(inPairs (roundPairs maxDist st.unpaired) h))).length
            * (stableReps + 2) + (stableReps + 1)
        < ((st.unpaired.filter
            (fun h => !(inPairs (roundPairs maxDist st.unpaired) h))).length + 2)
            * (stableReps + 2) := by
          rw [Nat.add_mul]
          exact Nat.add_lt_add_left (by omega) _
      _ ≤ st.unpaired.length * (stableReps + 2) := Nat.mul_le_mul_right _ hkL
      _ ≤ st.unpaired.length * (stableReps + 2) + st.patience := Nat.le_add_right _ _

/-- With fuel exceeding the measure, the loop halts in a state satisfying
the termination condition. -/
theorem pairLoop_stops (maxDist : Option Nat) (stableReps : Nat) :
    ∀ fuel st, stMeasure stableReps st < fuel →
      stopCond maxDist (pairLoop maxDist stableReps fuel st) = true := by
  intro fuel
  induction fuel with
  | zero => intro st h; exact absurd h (Nat.not_lt_zero _)
  | succ n ih =>
    intro st h
    by_cases hs : stopCond maxDist st = true
    · rw [pairLoop, if_pos hs]; exact hs
    · rw [pairLoop, if_neg hs]
      refine ih _ ?_
      have hfalse : stopCond maxDist st = false := by
        cases hcv : stopCond maxDist st
        · rfl
        · exact absurd hcv hs
      have := step_measure_lt maxDist stableReps hfalse
      omega

/-- The loop result is an iterate of `step` and no earlier iterate satisfies
the termination condition: the loop stops exactly at the stated condition. -/
theorem pairLoop_iterate (maxDist : Option Nat) (stableReps : Nat) :
    ∀ fuel st, ∃ k, pairLoop maxDist stableReps fuel st = (step maxDist stableReps)^[k] st
      ∧ ∀ j < k, stopCond maxDist ((step maxDist stableReps)^[j] st) = false := by
  intro fuel
  induction fuel with
  | zero =>
    intro st
    exact ⟨0, by simp [pairLoop], fun j hj => absurd hj (Nat.not_lt_zero _)⟩
  | succ n ih =>
    intro st
    by_cases hs : stopCond maxDist st = true
    · exact ⟨0, by rw [pairLoop, if_pos hs]; simp,
        fun j hj => absurd hj (Nat.not_lt_zero _)⟩
    · obtain ⟨k, hk1, hk2⟩ := ih (step maxDist stableReps st)
      refine ⟨k + 1, ?_, ?_⟩
      · rw [pairLoop, if_neg hs, hk1, Function.iterate_succ_apply]
      · intro j hj
        cases j with
        | zero =>
          simp only [Function.iterate_zero_apply]
          cases hcv : stopCond maxDist st
          · rfl
          · exact absurd hcv hs
        | succ j' =>
          rw [Function.iterate_succ_apply]
          exact hk2 j' (by omega)

/-- The initial measure is below the engine fuel. -/
theorem stMeasure_init_lt (hits : List Hit) (stableReps : Nat) :
    stMeasure stableReps (initState hits stableReps) < engineFuel hits stableReps := by
  dsimp only [stMeasure, initState, engineFuel]
  rw [Nat.succ_mul]
  exact Nat.add_lt_add_left (by omega) _

/-- C1: after the pairing engine runs, every input hit id is a member of
exactly one committed pair or occurs exactly once among the unpaired hits,
never both, and no id is lost. -/
theorem iterateGetPairs_partition (hits : List Hit) (maxDist : Option Nat)
    (stableReps : Nat) (hnd : (hits.map Hit.id).Nodup) :
    ∀ i ∈ hits.map Hit.id,
      ((pairMemberIds (iterateGetPairs maxDist hits stableReps).paired).count i = 1
          ∧ ((iterateGetPairs maxDist hits stableReps).unpaired.map Hit.id).count i = 0)
        ∨ ((pairMemberIds (iterateGetPairs maxDist hits stableReps).paired).count i = 0
          ∧ ((iterateGetPairs maxDist hits stableReps).unpaired.map Hit.id).count i = 1) := by
  intro i hi
  have hperm := pairLoop_ids_perm maxDist stableReps hnd
    (engineFuel hits stableReps) (initState hits stableReps)
    (by simp [initState, pairMemberIds])
  have hc := hperm.count_eq i
  rw [List.count_append] at hc
  have h1 : (hits.map Hit.id).count i = 1 := List.count_eq_one_of_mem hnd hi
  dsimp only [iterateGetPairs]
  omega

/-- Witness for C1 at a concrete two-hit input. -/
theorem iterateGetPairs_partition_witness :
    (([hitPlus, hitMinus].map Hit.id).Nodup)
      ∧ ∀ i ∈ [hitPlus, hitMinus].map Hit.id,
        ((pairMemberIds (iterateGetPairs (some 200) [hitPlus, hitMinus] 0).paired).count i = 1
            ∧ ((iterateGetPairs (some 200) [hitPlus, hitMinus] 0).unpaired.map Hit.id).count i
              = 0)
          ∨ ((pairMemberIds (iterateGetPairs (some 200) [hitPlus, hitMinus] 0).paired).count i
              = 0
            ∧ ((iterateGetPairs (some 200) [hitPlus, hitMinus] 0).unpaired.map Hit.id).count i
              = 1) :=
  ⟨by decide, iterateGetPairs_partition [hitPlus, hitMinus] (some 200) 0 (by decide)⟩

/-- C2: the candidate search and the pairing engine are pure functions of
the hit list and configuration, with a total tie-break order: two runs on
equal inputs yield equal candidate sets, equal paired/unpaired partitions,
and equal element names. -/
theorem engine_deterministic (hits hits' : List Hit) (maxDist maxDist' : Option Nat)
    (stableReps stableReps' : Nat) (pfx pfx' : Option String)
    (hh : hits = hits') (hm : maxDist = maxDist') (hs : stableReps = stableReps')
    (hp : pfx = pfx') :
    parseHits maxDist hits = parseHits maxDist' hits'
      ∧ iterateGetPairs maxDist hits stableReps = iterateGetPairs maxDist' hits' stableReps'
      ∧ writeElements (fetchElements (iterateGetPairs maxDist hits stableReps).paired) pfx
        = writeElements (fetchElements (iterateGetPairs maxDist' hits' stableReps').paired)
            pfx' := by
  subst hh; subst hm; subst hs; subst hp
  exact ⟨rfl, rfl, rfl⟩

/-- Witness for C2 at a concrete input and configuration. -/
theorem engine_deterministic_witness :
    parseHits (some 200) [hitPlus, hitMinus] = parseHits (some 200) [hitPlus, hitMinus]
      ∧ iterateGetPairs (some 200) [hitPlus, hitMinus] 0
        = iterateGetPairs (some 200) [hitPlus, hitMinus] 0
      ∧ writeElements (fetchElements (iterateGetPairs (some 200) [hitPlus, hitMinus] 0).paired)
          (some "P")
        = writeElements (fetchElements (iterateGetPairs (some 200) [hitPlus, hitMinus] 0).paired)
            (some "P") :=
  engine_deterministic [hitPlus, hitMinus] [hitPlus, hitMinus] (some 200) (some 200) 0 0
    (some "P") (some "P") rfl rfl rfl rfl

/-- C3: every pair committed under a configured maximum distance respects
the gap bound, and with the bound unset the candidate rule imposes no
distance condition at all. -/
theorem pairs_within_maxdist (hits : List Hit) (stableReps : Nat) :
    (∀ d : Nat, ∀ p ∈ (iterateGetPairs (some d) hits stableReps).paired, gap p.1 p.2 ≤ d)
      ∧ (∀ h h' : Hit, compatible none h h' = true ↔
          (h.id ≠ h'.id ∧ h.model = h'.model ∧ h.chrom = h'.chrom
            ∧ h.strand ≠ h'.strand)) := by
  constructor
  · intro d p hp
    have hcomp := pairLoop_compat (some d) stableReps (engineFuel hits stableReps)
      (initState hits stableReps) (by simp [initState]) p hp
    simp only [compatible, distOK, Bool.and_eq_true, decide_eq_true_eq] at hcomp
    exact hcomp.2
  · intro h h'
    simp [compatible, distOK, Bool.and_eq_true, decide_eq_true_eq, beq_iff_eq, bne_iff_ne]
    tauto

/-- Witness for C3: the committed pair of the concrete run satisfies the
configured bound. -/
theorem pairs_within_maxdist_witness :
    (hitPlus, hitMinus) ∈ (iterateGetPairs (some 200) [hitPlus, hitMinus] 0).paired
      ∧ gap hitPlus hitMinus ≤ 200 :=
  ⟨by decide,
    (pairs_within_maxdist [hitPlus, hitMinus] 0).1 200 (hitPlus, hitMinus) (by decide)⟩

/-- C7: the pairing loop halts; the halting state is a `step` iterate whose
earlier iterates all fail the termination condition, the condition at the
halt is exactly that no unpaired hit retains a remaining candidate or that
`stableReps + 1` consecutive unproductive rounds have exhausted the patience
counter, and every hit not committed to a pair is reported unpaired. -/
theorem iterateGetPairs_terminates (hits : List Hit) (maxDist : Option Nat)
    (stableReps : Nat) :
    ∃ k, iterateGetPairs maxDist hits stableReps
          = (step maxDist stableReps)^[k] (initState hits stableReps)
      ∧ (∀ j < k,
          stopCond maxDist ((step maxDist stableReps)^[j] (initState hits stableReps))
            = false)
      ∧ (noCandsLeft maxDist (iterateGetPairs maxDist hits stableReps) = true
          ∨ (iterateGetPairs maxDist hits stableReps).patience = 0)
      ∧ (∀ h ∈ hits,
          h.id ∉ pairMemberIds (iterateGetPairs maxDist hits stableReps).paired →
            h ∈ (iterateGetPairs maxDist hits stableReps).unpaired) := by
  obtain ⟨k, hk1, hk2⟩ :=
    pairLoop_iterate maxDist stableReps
      (engineFuel hits stableReps) (initState hits stableReps)
  refine ⟨k, hk1, hk2, ?_, ?_⟩
  · have hstop := pairLoop_stops maxDist stableReps (engineFuel hits stableReps)
      (initState hits stableReps) (stMeasure_init_lt hits stableReps)
    rw [stopCond, Bool.or_eq_true, decide_eq_true_eq] at hstop
    exact hstop
  · intro h hh hnot
    have hcov := pairLoop_cover maxDist stableReps
      (engineFuel hits stableReps) (initState hits stableReps)
      (fun x hx => Or.inl hx) h hh
    rcases hcov with hu | hp
    · exact hu
    · exact absurd hp hnot

/-- Membership in pair insertion. -/
theorem mem_insertPair {a b : Hit × Hit} : ∀ {l : List (Hit × Hit)},
    b ∈ insertPair a l ↔ b = a ∨ b ∈ l := by
  intro l
  induction l with
  | nil => simp [insertPair]
  | cons c t ih =>
    by_cases hc : pairPosLe a c = true
    · simp [insertPair, hc, List.mem_cons]
    · simp only [insertPair, if_neg hc, List.mem_cons, ih]
      tauto

/-- Positional sorting of pairs preserves membership. -/
theorem mem_sortPairs {a : Hit × Hit} : ∀ {l : List (Hit × Hit)},
    a ∈ sortPairs l ↔ a ∈ l := by
  intro l
  induction l with
  | nil => simp [sortPairs]
  | cons c t ih => simp [sortPairs, mem_insertPair, ih]

/-- Every pair in the numbering pass yields an element whose members are
exactly the two hit ids of the pair. -/
theorem fetchElementsAux_members {p : Hit × Hit} :
    ∀ (n : Nat) (l : List (Hit × Hit)), p ∈ l →
      ∃ e ∈ fetchElementsAux n l, e.members = [p.1.id, p.2.id] := by
  intro n l
  induction l generalizing n with
  | nil => intro h; cases h
  | cons c t ih =>
    intro h
    rcases List.mem_cons.mp h with h | h
    · subst h
      exact ⟨mkElement n p, List.mem_cons_self _ _, rfl⟩
    · obtain ⟨e, he, hm⟩ := ih (n + 1) h
      exact ⟨e, List.mem_cons_of_mem _ he, hm⟩

/-- Every committed pair surfaces in the extracted elements with both of its
hit ids as members. -/
theorem fetchElements_members {p : Hit × Hit} {ps : List (Hit × Hit)} (hp : p ∈ ps) :
    ∃ e ∈ fetchElements ps, e.members = [p.1.id, p.2.id] :=
  fetchElementsAux_members 1 (sortPairs ps) (mem_sortPairs.mpr hp)

/-- Witness for C7 at a concrete two-hit input. -/
theorem iterateGetPairs_terminates_witness :
    ∃ k, iterateGetPairs (some 200) [hitPlus, hitMinus] 0
          = (step (some 200) 0)^[k] (initState [hitPlus, hitMinus] 0)
      ∧ (∀ j < k,
          stopCond (some 200) ((step (some 200) 0)^[j] (initState [hitPlus, hitMinus] 0))
            = false)
      ∧ (noCandsLeft (some 200) (iterateGetPairs (some 200) [hitPlus, hitMinus] 0) = true
          ∨ (iterateGetPairs (some 200) [hitPlus, hitMinus] 0).patience = 0)
      ∧ (∀ h ∈ [hitPlus, hitMinus],
          h.id ∉ pairMemberIds (iterateGetPairs (some 200) [hitPlus, hitMinus] 0).paired →
            h ∈ (iterateGetPairs (some 200) [hitPlus, hitMinus] 0).unpaired) :=
  iterateGetPairs_terminates [hitPlus, hitMinus] (some 200) 0

/-- C5 counterexample: on the no-hits early exit the driver calls
`sys.exit(1)` — a controlled exit, but with a nonzero status, so not the
clean (status 0) exit the claim asserts. -/
theorem noHits_exit_status_one :
    (main envNoHits).exitCode = some 1
      ∧ ¬((main envNoHits).exitCode = none ∨ (main envNoHits).exitCode = some 0) := by
  decide

/-- C5 amended: with no nhmmer result files the run prints the informational
message and terminates through a controlled `sys.exit` carrying status 1. -/
theorem noHits_message_and_exit (env : Env) (hb : env.useBowtie2 = false)
    (hr : env.resultFiles = []) :
    (main env).infos = ["No hits found in " ++ env.resultDir ++ " . Quitting."]
      ∧ (main env).exitCode = some 1 := by
  simp [main, mainBody, hb, hr]

/-- Witness for the amended C5 at a concrete environment. -/
theorem noHits_message_and_exit_witness :
    envNoHits.useBowtie2 = false ∧ envNoHits.resultFiles = []
      ∧ ((main envNoHits).infos
            = ["No hits found in " ++ envNoHits.resultDir ++ " . Quitting."]
          ∧ (main envNoHits).exitCode = some 1) :=
  ⟨rfl, rfl, noHits_message_and_exit envNoHits rfl rfl⟩

/-- C8: missing external tools never abort the run — the outcome differs
from an all-tools-present run only in the warning lines, and when some tools
are missing the warning names exactly the missing ones. -/
theorem missing_tools_warn_only (env : Env) :
    main env = { main { env with toolPath := fun _ => true } with
        warnings := toolWarnings env }
      ∧ (env.tools.flatMap (missing_tool env.toolPath) ≠ [] →
          (main env).warnings =
            ["WARNING: Some tools required by tirmite could not be found: "
                ++ String.intercalate ", " (env.tools.flatMap (missing_tool env.toolPath)),
              "You may need to install them to use all features."]) := by
  constructor
  · have hbody : mainBody { env with toolPath := fun _ => true } = mainBody env := by
      cases env
      rfl
    show main env
        = { main { env with toolPath := fun _ => true } with warnings := toolWarnings env }
    rw [main, main, hbody]
  · intro hne
    have hfalse : (env.tools.flatMap (missing_tool env.toolPath)).isEmpty = false := by
      rcases hcv : env.tools.flatMap (missing_tool env.toolPath) with _ | ⟨a, t⟩
      · exact absurd hcv hne
      · rfl
    show toolWarnings env = _
    rw [toolWarnings]
    simp only [hfalse, Bool.false_eq_true, if_false]

/-- Witness for C8: with nhmmer missing, the run proceeds identically except
for the two warning lines, which name the missing tool. -/
theorem missing_tools_warn_only_witness :
    envToolsMissing.tools.flatMap (missing_tool envToolsMissing.toolPath) ≠ []
      ∧ (main envToolsMissing).warnings =
          ["WARNING: Some tools required by tirmite could not be found: nhmmer",
            "You may need to install them to use all features."] := by
  refine ⟨by decide, ?_⟩
  rw [(missing_tools_warn_only envToolsMissing).2 (by decide)]
  decide

/-- C9 counterexample: a `--nopairing` run that found no hits exits with
status 1 before ever reaching the TIR-writing step, so the claimed write
does not happen on every `--nopairing` run. -/
theorem nopairing_without_hits_writes_nothing :
    envNoPairNoHits.nopairing = true
      ∧ (main envNoPairNoHits).tirNames = none
      ∧ (main envNoPairNoHits).exitCode = some 1 := by
  decide

/-- C9 amended: a `--nopairing` run that reached the reporting step (bowtie2
path, or at least one nhmmer result file) writes the TIR fasta without the
run prefix, removes the temp directory unless `--keeptemp`, exits with
status 1 despite being a successful completion, and never runs pairing,
element extraction, or GFF writing. -/
theorem nopairing_path_behavior (env : Env) (hnp : env.nopairing = true)
    (hreach : env.useBowtie2 = true ∨ env.resultFiles ≠ []) :
    (main env).tirNames = some (writeTIRs (hitTableOf env) env.maxeval none)
      ∧ (main env).removedTemp = !env.keeptemp
      ∧ (main env).exitCode = some 1
      ∧ (main env).pairing = none
      ∧ (main env).elementNames = none
      ∧ (main env).gffNames = none := by
  have hcond : ¬(env.useBowtie2 = false ∧ env.resultFiles = []) := by
    rintro ⟨h1, h2⟩
    rcases hreach with h | h
    · rw [h1] at h; cases h
    · exact h h2
  simp [main, mainBody, hcond, hnp]

/-- Witness for the amended C9 at a concrete environment. -/
theorem nopairing_path_behavior_witness :
    envNoPair.nopairing = true
      ∧ (envNoPair.useBowtie2 = true ∨ envNoPair.resultFiles ≠ [])
      ∧ (main envNoPair).exitCode = some 1
      ∧ (main envNoPair).tirNames
          = some (writeTIRs (hitTableOf envNoPair) envNoPair.maxeval none) := by
  have h := nopairing_path_behavior envNoPair rfl (Or.inr (by decide))
  exact ⟨rfl, Or.inr (by decide), h.2.2.1, h.1⟩

/-- C10: the temp directory is removed (unless `--keeptemp`) at the end of
every run that got past the import stage, including the `--nopairing` exit,
but the no-hits early exit leaves it in place regardless of `--keeptemp`. -/
theorem tempdir_removal (env : Env) :
    (env.useBowtie2 = false → env.resultFiles = [] → (main env).removedTemp = false)
      ∧ ((env.useBowtie2 = true ∨ env.resultFiles ≠ []) →
          (main env).removedTemp = !env.keeptemp) := by
  constructor
  · intro hb hr
    simp [main, mainBody, hb, hr]
  · intro hreach
    have hcond : ¬(env.useBowtie2 = false ∧ env.resultFiles = []) := by
      rintro ⟨h1, h2⟩
      rcases hreach with h | h
      · rw [h1] at h; cases h
      · exact h h2
    by_cases hnp : env.nopairing = true
    · simp [main, mainBody, hcond, hnp]
    · simp [main, mainBody, hcond, hnp]

/-- Witness for C10 at the no-hits environment and the full-pipeline
environment. -/
theorem tempdir_removal_witness :
    (envNoHits.useBowtie2 = false ∧ envNoHits.resultFiles = []
        ∧ (main envNoHits).removedTemp = false)
      ∧ ((envBase.useBowtie2 = true ∨ envBase.resultFiles ≠ [])
        ∧ (main envBase).removedTemp = !envBase.keeptemp) :=
  ⟨⟨rfl, rfl, (tempdir_removal envNoHits).1 rfl rfl⟩,
    ⟨Or.inr (by decide), (tempdir_removal envBase).2 (Or.inr (by decide))⟩⟩

/-- C4 refutation: in a run with prefix "P" and `--nopairing`, the driver
calls `writeTIRs` without forwarding the prefix (`cmd_tirmite.py` line 120),
so the emitted TIR name lacks the prefix even though `--prefix` promises it
on all reported TIRs. -/
theorem nopairing_drops_pfx :
    envNoPair.pfx = some "P"
      ∧ (main envNoPair).tirNames = some ["mod1_1"]
      ∧ strBegins "P" "mod1_1" = false := by
  decide

/-- C6: the e-value threshold is only an output filter — the engine result
and the extracted elements are unchanged under any threshold, every emitted
TIR record passes the threshold, and both anchor ids of every committed pair
appear in the derived element regardless of their e-values. -/
theorem maxeval_filters_output_only (env : Env) (q q' : ℚ) :
    (main { env with maxeval := q }).pairing = (main { env with maxeval := q' }).pairing
      ∧ (main { env with maxeval := q }).elementNames
        = (main { env with maxeval := q' }).elementNames
      ∧ (∀ h ∈ tirRecords (hitTableOf env) q, h.evalue ≤ q)
      ∧ (∀ st, (main { env with maxeval := q }).pairing = some st →
          ∀ p ∈ st.paired, ∃ e ∈ fetchElements st.paired,
            e.members = [p.1.id, p.2.id]) := by
  refine ⟨?_, ?_, ?_, ?_⟩
  · cases env with
    | mk tp tls ub mh rf rd np kt gf rt px me mdist sr =>
      by_cases h1 : ub = false ∧ rf = []
      · simp [main, mainBody, h1]
      · by_cases h2 : np = true
        · simp [main, mainBody, h1, h2]
        · simp [main, mainBody, h1, h2, hitTableOf]
  · cases env with
    | mk tp tls ub mh rf rd np kt gf rt px me mdist sr =>
      by_cases h1 : ub = false ∧ rf = []
      · simp [main, mainBody, h1]
      · by_cases h2 : np = true
        · simp [main, mainBody, h1, h2]
        · simp [main, mainBody, h1, h2, hitTableOf]
  · intro h hm
    have := List.mem_filter.mp hm
    simpa using this.2
  · intro st hst p hp
    exact fetchElements_members hp

/-- Witness for C6: the concrete pair is committed identically under two
thresholds; its minus-strand anchor fails the threshold 1 yet both anchor
ids appear in the derived element. -/
theorem maxeval_filters_output_only_witness :
    (main { envBase with maxeval := 1 }).pairing = (main { envBase with maxeval := 5 }).pairing
      ∧ (1 : ℚ) < hitMinus.evalue
      ∧ ∃ st, (main { envBase with maxeval := 1 }).pairing = some st
          ∧ (hitPlus, hitMinus) ∈ st.paired
          ∧ ∃ e ∈ fetchElements st.paired, e.members = [hitPlus.id, hitMinus.id] := by
  refine ⟨(maxeval_filters_output_only envBase 1 5).1, by decide, ?_⟩
  refine ⟨iterateGetPairs envBase.maxdist (hitTableOf envBase) envBase.stableReps,
    by decide, by decide, ?_⟩
  exact (maxeval_filters_output_only envBase 1 5).2.2.2
    (iterateGetPairs envBase.maxdist (hitTableOf envBase) envBase.stableReps)
    (by decide) (hitPlus, hitMinus) (by decide)

end Tirmite
